import Mathlib

/-!
Verification of the k8s-ingress-claim admission controller.

This file gives a shallow embedding, in Lean 4, of the domain-claim logic of
the repository: the two claim providers (ATS and Istio), the helper functions
(`sanitize`, `appendNonEmpty`, `validateDomainClaims`,
`lookupIngressesByDomain`), the cache-index semantics used for domain lookups,
the webhook handler's decision logic, and the startup sequencing of `main`.
Each definition is translated from the corresponding Go function; theorems at
the end of the file settle the specification claims against these definitions.
-/

namespace IngressClaim

/-! ### Characters and sanitization

`Helper.sanitize` in pkg/provider/helper.go is
`strings.Replace(strings.ToLower(s), " ", "", -1)`: lower-case the string,
then remove every space character (U+0020).  We model the rune-wise
lower-casing with `Char.toLower` (ASCII lower-casing, which covers the
hostname alphabet the controller works with) and removal of spaces with a
filter on the character list.
-/

/-- One step of Go `strings.ToLower` on the character list of a string,
followed by Go `strings.Replace(-, " ", "", -1)`. -/
def sanitizeL (l : List Char) : List Char :=
  (l.map Char.toLower).filter (fun c => c != ' ')

/-- `Helper.sanitize` from pkg/provider/helper.go: lower-case, then strip all
space characters. -/
def sanitize (s : String) : String :=
  String.mk (sanitizeL s.data)

/-- `Helper.appendNonEmpty` from pkg/provider/helper.go: sanitize each item
and append it to the slice only if it is non-empty afterwards. -/
def appendNonEmpty (slice : List String) (items : List String) : List String :=
  items.foldl
    (fun acc item =>
      let item2 := sanitize item
      if item2 != "" then acc ++ [item2] else acc)
    slice

/-- Splitting a character list at every comma; `Go strings.Split(s, ",")` on
the underlying runes.  An empty input yields one empty piece, like Go. -/
def splitCommaL : List Char → List (List Char)
  | [] => [[]]
  | c :: cs =>
    if c = ',' then [] :: splitCommaL cs
    else
      match splitCommaL cs with
      | [] => [[c]]
      | p :: ps => (c :: p) :: ps

/-- Go `strings.Split(s, ",")`: the pieces of `s` between commas, in order. -/
def splitComma (s : String) : List String :=
  (splitCommaL s.data).map String.mk

/-! ### Data model

`v1beta1.Ingress` as far as the controller reads it: its object metadata
(name, namespace, annotations), the optional default backend and the ordered
routing rules.  The Go field `Namespace` is called `nspace` here because
`namespace` is a Lean keyword.  Annotations are an association list modelling
the Go string map lookup `ingress.Annotations[key]`.
-/

structure IngressBackend where
  serviceName : String
  servicePort : String
deriving DecidableEq

structure IngressRule where
  host : String
deriving DecidableEq

structure Ingress where
  name : String
  nspace : String
  annotations : List (String × String)
  backend : Option IngressBackend
  rules : List IngressRule
deriving DecidableEq

/-- Go map lookup `ingress.Annotations[key]` together with its `exists` flag:
`some v` when the key is present with value `v`, `none` when absent. -/
def lookupAnn (i : Ingress) (key : String) : Option String :=
  (i.annotations.find? (fun p => p.fst == key)).map Prod.snd

/-- The `kubernetes.io/ingress.class` annotation key (pkg/provider/types.go). -/
def IngressClass : String := "kubernetes.io/ingress.class"

/-- Provider name constant `ATS` (pkg/provider/ats.go). -/
def ATS : String := "ATS"

/-- Provider name constant `Istio` (pkg/provider/istio.go). -/
def Istio : String := "istio"

/-- ATS annotation key `default_domain` (pkg/provider/ats.go). -/
def DefaultDomain : String := "default_domain"

/-- ATS annotation key `aliases` (pkg/provider/ats.go). -/
def Aliases : String := "aliases"

/-- ATS annotation key `ports` (pkg/provider/ats.go). -/
def Ports : String := "ports"

/-! ### The ATS provider (pkg/provider/ats.go) -/

/-- `ats.ServesIngress`: the class annotation is absent or equal to `"ATS"`. -/
def atsServesIngress (i : Ingress) : Bool :=
  match lookupAnn i IngressClass with
  | none => true
  | some cls => cls == ATS

/-- `ats.getDefaultDomain`: the sanitized `default_domain` annotation value,
or `""` when the annotation is absent. -/
def atsGetDefaultDomain (i : Ingress) : String :=
  match lookupAnn i DefaultDomain with
  | some v => sanitize v
  | none => ""

/-- `ats.getAliases`: sanitize the `aliases` annotation value, split it on
commas (modelled by `splitComma`) and keep the non-empty pieces; `[]` when the annotation is absent. -/
def atsGetAliases (i : Ingress) : List String :=
  match lookupAnn i Aliases with
  | none => []
  | some v => appendNonEmpty [] (splitComma (sanitize v))

/-- `ats.getPorts`: split the `ports` annotation value on commas and keep the
pieces that are non-empty after sanitization; `[]` when absent. -/
def atsGetPorts (i : Ingress) : List String :=
  match lookupAnn i Ports with
  | none => []
  | some v => appendNonEmpty [] (splitComma v)

/-- `ats.GetDomains`: when ATS serves the ingress, the default domain followed
by the aliases, each appended through `appendNonEmpty`; else `[]`. -/
def atsGetDomains (i : Ingress) : List String :=
  if atsServesIngress i then
    appendNonEmpty (appendNonEmpty [] [atsGetDefaultDomain i]) (atsGetAliases i)
  else []

/-- `ats.ValidateSemantics`: when ATS serves the ingress, fail on a missing
default backend, then on an empty ports list, then on an empty default
domain; `none` means no error. -/
def atsValidateSemantics (i : Ingress) : Option String :=
  if atsServesIngress i then
    if i.backend = none then
      some ("Ingress " ++ i.name ++ " in namespace " ++ i.nspace ++
        " does not have a default backend specified.")
    else if atsGetPorts i = [] then
      some ("Ingress " ++ i.name ++ " in namespace " ++ i.nspace ++
        " does not have a ports annotation specified.")
    else if atsGetDefaultDomain i = "" then
      some ("Ingress " ++ i.name ++ " in namespace " ++ i.nspace ++
        " does not have a default_domain annotation specified.")
    else none
  else none

/-! ### The Istio provider (pkg/provider/istio.go) -/

/-- `istio.ServesIngress`: the class annotation is present and equal to
`"istio"`. -/
def istioServesIngress (i : Ingress) : Bool :=
  match lookupAnn i IngressClass with
  | none => false
  | some cls => cls == Istio

/-- `istio.GetDomains`: when Istio serves the ingress, each rule's host
appended through `appendNonEmpty`, in rule order; else `[]`. -/
def istioGetDomains (i : Ingress) : List String :=
  if istioServesIngress i then
    i.rules.foldl (fun acc r => appendNonEmpty acc [r.host]) []
  else []

/-- `istio.ValidateSemantics`: when Istio serves the ingress, fail if a
default backend is specified, then if some rule's host sanitizes to empty. -/
def istioValidateSemantics (i : Ingress) : Option String :=
  if istioServesIngress i then
    if i.backend ≠ none then
      some ("Ingress " ++ i.name ++ " in namespace " ++ i.nspace ++
        " specifies a default backend which is currently NOT supported for provider class: " ++
        Istio)
    else if i.rules.any (fun r => sanitize r.host == "") then
      some ("Ingress " ++ i.name ++ " in namespace " ++ i.nspace ++
        " specifies an IngressRule without a Host which is currently NOT supported " ++
        "for provider class: " ++ Istio)
    else none
  else none

/-! ### Index functions and objects delivered to the cache

`DomainsIndexFunc` receives an arbitrary `interface{}` object from the cache
machinery; `K8sObject.other` stands for a resource of any non-Ingress kind
(the Go type assertion `obj.(*v1beta1.Ingress)` fails on it).
-/

inductive K8sObject where
  | ingress (i : Ingress)
  | other
deriving DecidableEq

/-- `ats.DomainsIndexFunc`: typed error on a non-Ingress object; the ATS
domains when ATS serves the ingress; `[]` otherwise. -/
def atsDomainsIndexFunc : K8sObject → Except String (List String)
  | K8sObject.other => Except.error ("Resource is not an Ingress kind.")
  | K8sObject.ingress i =>
    if atsServesIngress i then Except.ok (atsGetDomains i) else Except.ok []

/-- `istio.DomainsIndexFunc`: typed error on a non-Ingress object; the Istio
domains when Istio serves the ingress; `[]` otherwise. -/
def istioDomainsIndexFunc : K8sObject → Except String (List String)
  | K8sObject.other => Except.error ("Resource is not an Ingress kind.")
  | K8sObject.ingress i =>
    if istioServesIngress i then Except.ok (istioGetDomains i) else Except.ok []

/-! ### Provider dispatch and the registry (pkg/provider/helper.go) -/

/-- The closed set of registered providers, `helper.providers`. -/
inductive Provider where
  | ats
  | istio
deriving DecidableEq

def Provider.name : Provider → String
  | Provider.ats => ATS
  | Provider.istio => Istio

def Provider.servesIngress : Provider → Ingress → Bool
  | Provider.ats => atsServesIngress
  | Provider.istio => istioServesIngress

def Provider.getDomains : Provider → Ingress → List String
  | Provider.ats => atsGetDomains
  | Provider.istio => istioGetDomains

def Provider.validateSemantics : Provider → Ingress → Option String
  | Provider.ats => atsValidateSemantics
  | Provider.istio => istioValidateSemantics

def Provider.domainsIndexFunc : Provider → K8sObject → Except String (List String)
  | Provider.ats => atsDomainsIndexFunc
  | Provider.istio => istioDomainsIndexFunc

/-- `Helper.GetProvider`: the first registered provider whose `ServesIngress`
is true, the default (ATS) when none is.  Go ranges over a map in
unspecified order; since at most one provider serves any ingress (proved
below as `serves_exclusive`), the order does not affect the result. -/
def getProvider (i : Ingress) : Provider :=
  if atsServesIngress i then Provider.ats
  else if istioServesIngress i then Provider.istio
  else Provider.ats

/-! ### The cache index and domain lookups

`main` registers one index per provider on the informer's cache:
`cache.Indexers{ATS: ats.DomainsIndexFunc, istio: istio.DomainsIndexFunc}`.
The cache's store holds the ingress objects delivered by the watch; under
`ByIndex(indexName, key)` it returns exactly the stored objects whose index
function output contains `key`, and an error when `indexName` names no
registered index.  A store is modelled as the list of ingresses currently in
the cache, in a fixed order.
-/

/-- The domains under which a stored ingress is indexed by provider `p`:
the output of `p`'s `DomainsIndexFunc` on it (never an error on an ingress). -/
def indexDomains (p : Provider) (j : Ingress) : List String :=
  match p.domainsIndexFunc (K8sObject.ingress j) with
  | Except.ok ds => ds
  | Except.error _ => []

/-- `cache.Indexer.ByIndex` over the ingress store with the two registered
index functions; an unregistered index name is an error. -/
def byIndex (store : List Ingress) (indexName : String) (key : String) :
    Except String (List Ingress) :=
  if indexName = ATS then
    Except.ok (store.filter (fun j => (indexDomains Provider.ats j).contains key))
  else if indexName = Istio then
    Except.ok (store.filter (fun j => (indexDomains Provider.istio j).contains key))
  else
    Except.error ("Index with name " ++ indexName ++ " does not exist")

/-- `Helper.lookupIngressesByDomain`: the `ByIndex` lookup; the Go code then
keeps only matches of Ingress kind, which is the identity on a store of
ingresses. -/
def lookupIngressesByDomain (store : List Ingress) (index : String) (domain : String) :
    Except String (List Ingress) :=
  byIndex store index domain

/-- The conflict message produced by `Helper.validateDomainClaims` for a
domain owned by another ingress. -/
def conflictMsg (domain : String) (m : Ingress) : String :=
  "Domain " ++ domain ++ " already exists. Ingress " ++ m.name ++
    " in namespace " ++ m.nspace ++ " owns this domain."

/-- `Helper.validateDomainClaims`: walk the domains in order; for each, look
its owners up in the index named after the resolved provider of the ingress;
return the lookup error, or the conflict message for the first owner whose
namespace or name differs; `none` when every owner of every domain is the
ingress itself. -/
def validateDomainClaims (store : List Ingress) (i : Ingress) :
    List String → Option String
  | [] => none
  | d :: rest =>
    match lookupIngressesByDomain store (getProvider i).name d with
    | Except.error e => some e
    | Except.ok found =>
      match found.find? (fun m => !(m.nspace == i.nspace && m.name == i.name)) with
      | some m => some (conflictMsg d m)
      | none => validateDomainClaims store i rest

/-- `ats.ValidateDomainClaims` / `istio.ValidateDomainClaims`: when the
provider serves the ingress, run the helper check on its domains; else no
error. -/
def Provider.validateDomainClaims (p : Provider) (store : List Ingress) (i : Ingress) :
    Option String :=
  if p.servesIngress i then IngressClaim.validateDomainClaims store i (p.getDomains i) else none

/-! ### The webhook handler's decision logic (listener.go)

`webhookHandler` decodes the request body into an `AdmissionReview`, then:
with `admitAll` set it allows unconditionally; otherwise it rejects
non-ingress resource types, rejects undecodable raw objects, and runs the
resolved provider's `ValidateSemantics` then `ValidateDomainClaims`,
denying with the first error and allowing otherwise.  JSON decoding itself
is an external collaborator: a body that fails to decode is modelled as
`none`, a raw object that fails to decode as `rawObject = none`.
-/

structure GroupVersionResource where
  group : String
  version : String
  resource : String
deriving DecidableEq

/-- `ingressResourceType` from listener.go. -/
def ingressResourceType : GroupVersionResource :=
  ⟨"extensions", "v1beta1", "ingresses"⟩

structure AdmissionRequest where
  resource : GroupVersionResource
  rawObject : Option Ingress
deriving DecidableEq

inductive Decision where
  | allow
  | deny (reason : String)
deriving DecidableEq

/-- The verdict computed by `webhookHandler` for a decoded request. -/
def webhookDecision (admitAll : Bool) (store : List Ingress)
    (body : Option AdmissionRequest) : Decision :=
  match body with
  | none =>
    Decision.deny ("Failed to decode the request body json into an AdmissionReview resource.")
  | some req =>
    if admitAll then Decision.allow
    else if req.resource ≠ ingressResourceType then
      Decision.deny ("Incoming resource is not an Ingress resource")
    else
      match req.rawObject with
      | none =>
        Decision.deny ("Failed to decode the raw object resource on the admission review request into an Ingress resource.")
      | some ingress =>
        let p := getProvider ingress
        match p.validateSemantics ingress with
        | some e => Decision.deny ("Ingress validation checks failed: " ++ e)
        | none =>
          match p.validateDomainClaims store ingress with
          | some e => Decision.deny e
          | none => Decision.allow

/-! ### Startup sequencing of `main` (main.go)

`main` wires the indexer, starts the informer, blocks in
`cache.WaitForCacheSync` until the initial synchronization completes (and
exits fatally on timeout), and only then registers the webhook handler and
starts the HTTPS server.  The phases below model that linear order; a
decision can be served only in the `serving` phase.
-/

inductive MainPhase where
  | boot
  | cacheSynced
  | serving
deriving DecidableEq

/-- Initial synchronization has completed (WaitForCacheSync returned true). -/
def MainPhase.syncedDone : MainPhase → Bool
  | MainPhase.boot => false
  | MainPhase.cacheSynced => true
  | MainPhase.serving => true

/-- The webhook handler is registered and the HTTPS server is listening. -/
def MainPhase.handlerReachable : MainPhase → Bool
  | MainPhase.serving => true
  | _ => false

/-- The steps `main` takes, in order: synchronization completes, then the
server starts. -/
inductive MainStep : MainPhase → MainPhase → Prop
  | sync : MainStep MainPhase.boot MainPhase.cacheSynced
  | serve : MainStep MainPhase.cacheSynced MainPhase.serving

/-- Phases reachable from process start. -/
inductive MainReachable : MainPhase → Prop
  | init : MainReachable MainPhase.boot
  | step {s t : MainPhase} : MainReachable s → MainStep s t → MainReachable t

/-- What the process answers to an admission request in a given phase:
`none` when the webhook handler is not yet reachable (nothing is served at
all), the handler's verdict once it is. -/
def serveDecision (s : MainPhase) (admitAll : Bool) (store : List Ingress)
    (body : Option AdmissionRequest) : Option Decision :=
  if s.handlerReachable then some (webhookDecision admitAll store body) else none

/-! ### Specification-side predicates and concrete inputs

`portsMissingOrEmpty` and `defaultDomainMissingOrEmpty` phrase the ATS
semantic-validation conditions the way the specification does ("the
annotation is missing or sanitizes to empty"); the theorems below relate
them to the code's checks.  The concrete ingresses are used as witnesses
and counterexamples.
-/

/-- The ports annotation is missing, or every comma-split piece of its value
sanitizes to empty. -/
def portsMissingOrEmpty (i : Ingress) : Prop :=
  match lookupAnn i Ports with
  | none => True
  | some v => ∀ p ∈ splitComma v, sanitize p = ""

instance (i : Ingress) : Decidable (portsMissingOrEmpty i) := by
  unfold portsMissingOrEmpty
  cases lookupAnn i Ports with
  | none => exact inferInstanceAs (Decidable True)
  | some v => exact inferInstanceAs (Decidable (∀ p ∈ splitComma v, sanitize p = ""))

/-- The default-domain annotation is missing, or its value sanitizes to
empty. -/
def defaultDomainMissingOrEmpty (i : Ingress) : Prop :=
  match lookupAnn i DefaultDomain with
  | none => True
  | some v => sanitize v = ""

instance (i : Ingress) : Decidable (defaultDomainMissingOrEmpty i) := by
  unfold defaultDomainMissingOrEmpty
  cases lookupAnn i DefaultDomain with
  | none => exact inferInstanceAs (Decidable True)
  | some v => exact inferInstanceAs (Decidable (sanitize v = ""))

/-- An ATS ingress (no class annotation) with a default domain, two aliases
and a ports annotation; it passes the ATS semantic checks. -/
def iAts1 : Ingress :=
  ⟨"ing-a", "ns-a",
    [(DefaultDomain, "App.Test.com"), (Aliases, "a.test.com, b.test.com"), (Ports, "80")],
    some ⟨"svc-a", "80"⟩, []⟩

/-- An Istio ingress claiming the same hostname string as `iAts1`. -/
def iIstio1 : Ingress :=
  ⟨"ing-b", "ns-b", [(IngressClass, "istio")], none, [⟨"app.test.com"⟩]⟩

/-- An ATS ingress in ns1 owning the domain a.com. -/
def iOwn1 : Ingress :=
  ⟨"ing1", "ns1", [(DefaultDomain, "a.com"), (Ports, "80")], some ⟨"svc1", "80"⟩, []⟩

/-- A different ATS ingress (ns2/ing2) also claiming a.com. -/
def iAts2 : Ingress :=
  ⟨"ing2", "ns2", [(DefaultDomain, "a.com"), (Ports, "80")], some ⟨"svc2", "80"⟩, []⟩

/-- An ATS ingress whose aliases repeat its default domain. -/
def iDup : Ingress :=
  ⟨"ing-dup", "ns-dup", [(DefaultDomain, "a.com"), (Aliases, "a.com")],
    some ⟨"svc-dup", "80"⟩, []⟩

/-- An ingress whose class annotation names neither registered provider. -/
def iOther : Ingress :=
  ⟨"ing-o", "ns-o", [(IngressClass, "other"), (DefaultDomain, "a.com")], none, []⟩

/-! ### Helper lemmas: characters and sanitization -/

theorem char_toNat_ofNat {n : Nat} (h : n < 55296) : (Char.ofNat n).toNat = n := by
  have hv : n.isValidChar := Or.inl h
  simp [Char.ofNat, hv, Char.ofNatAux, Char.toNat, UInt32.toNat, BitVec.toNat_ofNatLt]

theorem char_toLower_def (c : Char) :
    Char.toLower c = if c.toNat ≥ 65 ∧ c.toNat ≤ 90 then Char.ofNat (c.toNat + 32) else c := rfl

theorem char_toLower_idem (c : Char) : Char.toLower (Char.toLower c) = Char.toLower c := by
  by_cases h : c.toNat ≥ 65 ∧ c.toNat ≤ 90
  · have h1 : (Char.ofNat (c.toNat + 32)).toNat = c.toNat + 32 := char_toNat_ofNat (by omega)
    rw [char_toLower_def c, if_pos h, char_toLower_def, h1, if_neg (by omega)]
  · rw [char_toLower_def c, if_neg h, char_toLower_def c, if_neg h]

theorem sanitizeL_idem (l : List Char) : sanitizeL (sanitizeL l) = sanitizeL l := by
  have hfix : ∀ c ∈ sanitizeL l, Char.toLower c = c := by
    intro c hc
    have hm : c ∈ l.map Char.toLower := List.mem_of_mem_filter hc
    obtain ⟨a, _, rfl⟩ := List.mem_map.mp hm
    exact char_toLower_idem a
  have hmap : (sanitizeL l).map Char.toLower = sanitizeL l := by
    calc (sanitizeL l).map Char.toLower = (sanitizeL l).map id := List.map_congr_left hfix
    _ = sanitizeL l := List.map_id _
  have hfil : (sanitizeL l).filter (fun c => c != ' ') = sanitizeL l := by
    apply List.filter_eq_self.mpr
    intro a ha
    rw [sanitizeL] at ha
    exact (List.mem_filter.mp ha).2
  rw [sanitizeL, hmap, hfil]

theorem sanitize_idem (s : String) : sanitize (sanitize s) = sanitize s :=
  congrArg String.mk (sanitizeL_idem s.data)

theorem sanitize_empty : sanitize ("") = "" := rfl

/-- Normal form of `appendNonEmpty`: the slice, followed by the sanitized
items with the empty ones dropped. -/
theorem appendNonEmpty_eq (items : List String) :
    ∀ slice, appendNonEmpty slice items
      = slice ++ (items.map sanitize).filter (fun s => s != "") := by
  induction items with
  | nil => intro slice; simp [appendNonEmpty]
  | cons x xs ih =>
    intro slice
    by_cases h : sanitize x = ""
    · have : appendNonEmpty slice (x :: xs) = appendNonEmpty slice xs := by
        simp [appendNonEmpty, h]
      rw [this, ih]
      simp [h]
    · have : appendNonEmpty slice (x :: xs) = appendNonEmpty (slice ++ [sanitize x]) xs := by
        simp [appendNonEmpty, h]
      rw [this, ih]
      simp [h]

/-! ### Helper lemmas -/

theorem istioServes_false_of_ats {i : Ingress} (h : atsServesIngress i = true) :
    istioServesIngress i = false := by
  unfold atsServesIngress at h
  unfold istioServesIngress
  cases hc : lookupAnn i IngressClass with
  | none => rfl
  | some cls =>
    rw [hc] at h
    have : cls = ATS := by simpa using h
    subst this
    decide

theorem atsServes_false_of_istio {i : Ingress} (h : istioServesIngress i = true) :
    atsServesIngress i = false := by
  unfold istioServesIngress at h
  unfold atsServesIngress
  cases hc : lookupAnn i IngressClass with
  | none => rw [hc] at h; exact absurd h (by decide)
  | some cls =>
    rw [hc] at h
    have : cls = Istio := by simpa using h
    subst this
    decide

theorem atsGetDomains_of_not_serves {i : Ingress} (h : atsServesIngress i = false) :
    atsGetDomains i = [] := by
  unfold atsGetDomains
  rw [h]
  rfl

theorem istioGetDomains_of_not_serves {i : Ingress} (h : istioServesIngress i = false) :
    istioGetDomains i = [] := by
  unfold istioGetDomains
  rw [h]
  rfl

/-- On a stored ingress, each provider's index function never errors and
indexes the ingress exactly under its `GetDomains`. -/
theorem indexDomains_eq (p : Provider) (j : Ingress) :
    indexDomains p j = p.getDomains j := by
  cases p with
  | ats =>
    by_cases h : atsServesIngress j
    · simp [indexDomains, Provider.domainsIndexFunc, atsDomainsIndexFunc, Provider.getDomains, h]
    · have h2 : atsServesIngress j = false := by simpa using h
      simp [indexDomains, Provider.domainsIndexFunc, atsDomainsIndexFunc, Provider.getDomains,
        h2, atsGetDomains_of_not_serves h2]
  | istio =>
    by_cases h : istioServesIngress j
    · simp [indexDomains, Provider.domainsIndexFunc, istioDomainsIndexFunc, Provider.getDomains, h]
    · have h2 : istioServesIngress j = false := by simpa using h
      simp [indexDomains, Provider.domainsIndexFunc, istioDomainsIndexFunc, Provider.getDomains,
        h2, istioGetDomains_of_not_serves h2]

/-- Looking a domain up under a registered provider's name never errors: it
returns the stored ingresses indexed under that domain. -/
theorem lookup_name (store : List Ingress) (p : Provider) (d : String) :
    lookupIngressesByDomain store p.name d
      = Except.ok (store.filter (fun j => (indexDomains p j).contains d)) := by
  cases p with
  | ats => simp [lookupIngressesByDomain, byIndex, Provider.name, ATS, Istio]
  | istio => simp [lookupIngressesByDomain, byIndex, Provider.name, ATS, Istio]

/-- The self-owner test used by `validateDomainClaims`, as a Bool. -/
theorem find_foreign_none {i : Ingress} {l : List Ingress}
    (h : ∀ j ∈ l, j.nspace = i.nspace ∧ j.name = i.name) :
    l.find? (fun m => !(m.nspace == i.nspace && m.name == i.name)) = none := by
  apply List.find?_eq_none.mpr
  intro j hj
  have hs := h j hj
  simp [hs.1, hs.2]

/-- `validateDomainClaims` succeeds when every indexed owner of every domain
is the ingress itself. -/
theorem vdc_none (store : List Ingress) (i : Ingress) (domains : List String)
    (h : ∀ d ∈ domains, ∀ j ∈ store,
      (indexDomains (getProvider i) j).contains d = true →
      j.nspace = i.nspace ∧ j.name = i.name) :
    validateDomainClaims store i domains = none := by
  induction domains with
  | nil => rfl
  | cons d rest ih =>
    unfold validateDomainClaims
    rw [lookup_name store (getProvider i) d]
    dsimp only
    have hall : ∀ j ∈ store.filter (fun j => (indexDomains (getProvider i) j).contains d),
        j.nspace = i.nspace ∧ j.name = i.name := by
      intro j hj
      have hm := List.mem_filter.mp hj
      exact h d (List.mem_cons_self d rest) j hm.1 hm.2
    rw [find_foreign_none hall]
    exact ih (fun d2 hd2 => h d2 (List.mem_cons_of_mem d hd2))

/-- `validateDomainClaims` fails with the conflict message of the first
foreign owner of the head domain. -/
theorem vdc_conflict (store : List Ingress) (i : Ingress) (d : String)
    (rest : List String) (m : Ingress)
    (hm : (store.filter (fun j => (indexDomains (getProvider i) j).contains d)).find?
        (fun m2 => !(m2.nspace == i.nspace && m2.name == i.name)) = some m) :
    validateDomainClaims store i (d :: rest) = some (conflictMsg d m) := by
  unfold validateDomainClaims
  rw [lookup_name store (getProvider i) d]
  dsimp only
  rw [hm]

/-- A head domain all of whose indexed owners are the ingress itself is
skipped. -/
theorem vdc_skip (store : List Ingress) (i : Ingress) (d : String) (rest : List String)
    (h : ∀ j ∈ store, (indexDomains (getProvider i) j).contains d = true →
      j.nspace = i.nspace ∧ j.name = i.name) :
    validateDomainClaims store i (d :: rest) = validateDomainClaims store i rest := by
  conv_lhs => rw [validateDomainClaims]
  rw [lookup_name store (getProvider i) d]
  dsimp only
  have hall : ∀ j ∈ store.filter (fun j => (indexDomains (getProvider i) j).contains d),
      j.nspace = i.nspace ∧ j.name = i.name := by
    intro j hj
    have hmem := List.mem_filter.mp hj
    exact h j hmem.1 hmem.2
  rw [find_foreign_none hall]

/-- A list of sanitized non-empty strings is unchanged by sanitizing and
filtering again. -/
theorem sanitized_filter_fixed (l : List String) :
    ((((l.map sanitize).filter (fun s => s != "")).map sanitize).filter (fun s => s != ""))
      = (l.map sanitize).filter (fun s => s != "") := by
  have hfix : ∀ x ∈ (l.map sanitize).filter (fun s => s != ""), sanitize x = x := by
    intro x hx
    obtain ⟨a, _, rfl⟩ := List.mem_map.mp (List.mem_filter.mp hx).1
    exact sanitize_idem a
  have hmap : ((l.map sanitize).filter (fun s => s != "")).map sanitize
      = (l.map sanitize).filter (fun s => s != "") := by
    calc ((l.map sanitize).filter (fun s => s != "")).map sanitize
        = ((l.map sanitize).filter (fun s => s != "")).map id := List.map_congr_left hfix
    _ = (l.map sanitize).filter (fun s => s != "") := List.map_id _
  rw [hmap]
  apply List.filter_eq_self.mpr
  intro a ha
  exact (List.mem_filter.mp ha).2

/-- Unrolling the fold in `istio.GetDomains`. -/
theorem istio_foldl (rules : List IngressRule) :
    ∀ acc, rules.foldl (fun acc r => appendNonEmpty acc [r.host]) acc
      = acc ++ (rules.map (fun r => sanitize r.host)).filter (fun s => s != "") := by
  induction rules with
  | nil => intro acc; simp
  | cons r rs ih =>
    intro acc
    rw [List.foldl_cons, ih, appendNonEmpty_eq]
    by_cases h : sanitize r.host = ""
    · simp [h]
    · simp [h, List.filter_cons]

/-- Normal form of `ats.GetDomains` on a served ingress: the sanitized
default-domain annotation value, then the sanitized comma-split pieces of the
aliases annotation value, with the empty entries dropped. -/
theorem atsGetDomains_eq (i : Ingress) (h : atsServesIngress i = true) :
    atsGetDomains i
      = ((sanitize ((lookupAnn i DefaultDomain).getD (""))) ::
          ((splitComma (sanitize ((lookupAnn i Aliases).getD ("")))).map sanitize)).filter
          (fun s => s != "") := by
  have hdd : sanitize (atsGetDefaultDomain i)
      = sanitize ((lookupAnn i DefaultDomain).getD ("")) := by
    unfold atsGetDefaultDomain
    cases hc : lookupAnn i DefaultDomain with
    | none => rfl
    | some v => simp [sanitize_idem]
  unfold atsGetDomains
  rw [if_pos h, appendNonEmpty_eq, appendNonEmpty_eq, List.nil_append]
  rw [List.filter_cons]
  cases hal : lookupAnn i Aliases with
  | none =>
    have htail : ((splitComma (sanitize (""))).map sanitize) = [("" : String)] := by decide
    simp only [atsGetAliases, hal, Option.getD_none, htail]
    by_cases hE : sanitize ((lookupAnn i DefaultDomain).getD ("")) = ""
    · simp [List.filter_cons, hdd, hE]
    · simp [List.filter_cons, hdd, hE]
  | some v =>
    simp only [atsGetAliases, hal, Option.getD_some]
    rw [appendNonEmpty_eq, List.nil_append, sanitized_filter_fixed]
    by_cases hE : sanitize ((lookupAnn i DefaultDomain).getD ("")) = ""
    · simp [List.filter_cons, hdd, hE]
    · simp [List.filter_cons, hdd, hE]

/-- Normal form of `istio.GetDomains` on a served ingress: the sanitized rule
hosts in rule order, with the empty ones dropped. -/
theorem istioGetDomains_eq (i : Ingress) (h : istioServesIngress i = true) :
    istioGetDomains i
      = (i.rules.map (fun r => sanitize r.host)).filter (fun s => s != "") := by
  unfold istioGetDomains
  rw [if_pos h, istio_foldl, List.nil_append]

/-- Every ATS domain is sanitized and non-empty. -/
theorem mem_atsGetDomains {i : Ingress} {d : String} (hd : d ∈ atsGetDomains i) :
    sanitize d = d ∧ d ≠ "" := by
  by_cases h : atsServesIngress i = true
  · rw [atsGetDomains_eq i h] at hd
    have hm := List.mem_filter.mp hd
    have hne : d ≠ "" := by simpa using hm.2
    refine ⟨?_, hne⟩
    rcases List.mem_cons.mp hm.1 with h1 | h2
    · rw [h1]; exact sanitize_idem _
    · obtain ⟨a, _, rfl⟩ := List.mem_map.mp h2
      exact sanitize_idem a
  · rw [atsGetDomains_of_not_serves (by simpa using h)] at hd
    cases hd

/-- Every Istio domain is sanitized and non-empty. -/
theorem mem_istioGetDomains {i : Ingress} {d : String} (hd : d ∈ istioGetDomains i) :
    sanitize d = d ∧ d ≠ "" := by
  by_cases h : istioServesIngress i = true
  · rw [istioGetDomains_eq i h] at hd
    have hm := List.mem_filter.mp hd
    obtain ⟨r, _, rfl⟩ := List.mem_map.mp hm.1
    exact ⟨sanitize_idem _, by simpa using hm.2⟩
  · rw [istioGetDomains_of_not_serves (by simpa using h)] at hd
    cases hd

/-! ### The claims -/

/-- Claim C9: `sanitize` is idempotent, and on the example string
`"  A.B.C "` it yields `"a.b.c"`: lower-casing and whitespace-stripping make
case and surrounding whitespace insignificant in domains. -/
theorem claimC9_sanitize :
    (∀ s : String, sanitize (sanitize s) = sanitize s) ∧
    sanitize ("  A.B.C ") = "a.b.c" :=
  ⟨sanitize_idem, by decide⟩

/-- Claim C3, counterexample: an ingress whose class annotation is `"other"`
is claimed by no non-default provider, yet the default provider's
`ServesIngress` is false as well — refuting the claim's clause that the
default provider's `ServesIngress` is true whenever no non-default provider
claims the ingress. -/
theorem claimC3_counterexample :
    istioServesIngress iOther = false ∧ atsServesIngress iOther = false := by
  constructor
  · decide
  · decide

/-- Claim C3, amended: at most one of ATS and Istio serves any ingress;
Istio serves it exactly when the class annotation is present and equal to
`"istio"`, and ATS exactly when it is absent or equal to `"ATS"` — so an
ingress whose class names neither provider is served by neither, the default
provider included. -/
theorem claimC3_serves_exclusive : ∀ i : Ingress,
    ¬(atsServesIngress i = true ∧ istioServesIngress i = true) ∧
    (istioServesIngress i = true ↔ lookupAnn i IngressClass = some Istio) ∧
    (atsServesIngress i = true ↔
      (lookupAnn i IngressClass = none ∨ lookupAnn i IngressClass = some ATS)) := by
  intro i
  refine ⟨?_, ?_, ?_⟩
  · rintro ⟨ha, hi⟩
    rw [atsServes_false_of_istio hi] at ha
    cases ha
  · unfold istioServesIngress
    cases hc : lookupAnn i IngressClass with
    | none => simp
    | some cls => simp
  · unfold atsServesIngress
    cases hc : lookupAnn i IngressClass with
    | none => simp
    | some cls => simp

/-- Witness for the amended claim C3 at concrete ingresses. -/
theorem claimC3_serves_exclusive_witness :
    istioServesIngress iIstio1 = true ∧ atsServesIngress iAts1 = true :=
  ⟨(claimC3_serves_exclusive iIstio1).2.1.mpr (by decide),
    (claimC3_serves_exclusive iAts1).2.2.mpr (Or.inl (by decide))⟩

/-- Claim C4, counterexample: `GetDomains` does not drop
duplicate-after-sanitization entries — an ATS ingress whose aliases repeat
its default domain yields the domain twice. -/
theorem claimC4_counterexample :
    atsGetDomains iDup = ["a.com", "a.com"] ∧ ¬(atsGetDomains iDup).Nodup := by
  constructor
  · decide
  · decide

/-- Claim C4, amended: `GetDomains` returns the claimed domains sanitized,
with entries that are empty after sanitization dropped (duplicates are
kept), in provider-specific order — ATS: the `default_domain` annotation
value then the comma-split `aliases` annotation values in declared order;
Istio: the host of each routing rule in rule order, skipping rules whose
host sanitizes to empty; both variants return `[]` when the provider does
not serve the ingress. -/
theorem claimC4_getDomains : ∀ i : Ingress,
    (atsServesIngress i = false → atsGetDomains i = []) ∧
    (istioServesIngress i = false → istioGetDomains i = []) ∧
    (∀ d ∈ atsGetDomains i, sanitize d = d ∧ d ≠ "") ∧
    (∀ d ∈ istioGetDomains i, sanitize d = d ∧ d ≠ "") ∧
    (atsServesIngress i = true →
      atsGetDomains i
        = ((sanitize ((lookupAnn i DefaultDomain).getD (""))) ::
            ((splitComma (sanitize ((lookupAnn i Aliases).getD ("")))).map sanitize)).filter
            (fun s => s != "")) ∧
    (istioServesIngress i = true →
      istioGetDomains i = (i.rules.map (fun r => sanitize r.host)).filter (fun s => s != "")) :=
  fun i =>
    ⟨atsGetDomains_of_not_serves, istioGetDomains_of_not_serves,
      fun _ hd => mem_atsGetDomains hd, fun _ hd => mem_istioGetDomains hd,
      atsGetDomains_eq i, istioGetDomains_eq i⟩

/-- Witness for the amended claim C4 at concrete ingresses. -/
theorem claimC4_getDomains_witness :
    atsGetDomains iAts1 = ["app.test.com", "a.test.com", "b.test.com"] ∧
    istioGetDomains iIstio1 = ["app.test.com"] := by
  constructor
  · have h := (claimC4_getDomains iAts1).2.2.2.2.1 (by decide)
    rw [h]
    decide
  · have h := (claimC4_getDomains iIstio1).2.2.2.2.2 (by decide)
    rw [h]
    decide

/-- Claim C6: with the `admitAll` override enabled, every request whose
body decodes is Allowed, regardless of the stored claims and of the
ingress's content — provider resolution, semantic validation and the
domain-claim check are bypassed. -/
theorem claimC6_admitAll : ∀ (store : List Ingress) (req : AdmissionRequest),
    webhookDecision true store (some req) = Decision.allow := by
  intro store req
  rfl

/-- The code's ports check is the specification's "missing or sanitizes to
empty" condition. -/
theorem atsGetPorts_eq_nil_iff (i : Ingress) :
    atsGetPorts i = [] ↔ portsMissingOrEmpty i := by
  unfold atsGetPorts portsMissingOrEmpty
  cases hc : lookupAnn i Ports with
  | none => simp
  | some v =>
    dsimp only
    rw [appendNonEmpty_eq, List.nil_append, List.filter_eq_nil_iff]
    simp

/-- The code's default-domain check is the specification's "missing or
sanitizes to empty" condition. -/
theorem atsGetDefaultDomain_empty_iff (i : Ingress) :
    atsGetDefaultDomain i = "" ↔ defaultDomainMissingOrEmpty i := by
  unfold atsGetDefaultDomain defaultDomainMissingOrEmpty
  cases lookupAnn i DefaultDomain with
  | none => simp
  | some v => simp

/-- Claim C5: `ValidateSemantics` checks run only when the provider serves
the ingress, in a fixed order, returning the first failing check's error,
which carries the ingress name and namespace.  ATS: missing default backend,
then missing-or-empty ports annotation, then missing-or-empty default_domain
annotation.  Istio: a default backend is specified, then some routing rule's
host is empty after sanitization.  No failing check means no error. -/
theorem claimC5_validateSemantics : ∀ i : Ingress,
    (atsServesIngress i = false → atsValidateSemantics i = none) ∧
    (atsServesIngress i = true → i.backend = none →
      atsValidateSemantics i = some ("Ingress " ++ i.name ++ " in namespace " ++ i.nspace ++
        " does not have a default backend specified.")) ∧
    (atsServesIngress i = true → i.backend ≠ none → portsMissingOrEmpty i →
      atsValidateSemantics i = some ("Ingress " ++ i.name ++ " in namespace " ++ i.nspace ++
        " does not have a ports annotation specified.")) ∧
    (atsServesIngress i = true → i.backend ≠ none → ¬portsMissingOrEmpty i →
      defaultDomainMissingOrEmpty i →
      atsValidateSemantics i = some ("Ingress " ++ i.name ++ " in namespace " ++ i.nspace ++
        " does not have a default_domain annotation specified.")) ∧
    (atsServesIngress i = true → i.backend ≠ none → ¬portsMissingOrEmpty i →
      ¬defaultDomainMissingOrEmpty i → atsValidateSemantics i = none) ∧
    (istioServesIngress i = false → istioValidateSemantics i = none) ∧
    (istioServesIngress i = true → i.backend ≠ none →
      istioValidateSemantics i = some ("Ingress " ++ i.name ++ " in namespace " ++ i.nspace ++
        " specifies a default backend which is currently NOT supported for provider class: " ++
        Istio)) ∧
    (istioServesIngress i = true → i.backend = none →
      (∃ r ∈ i.rules, sanitize r.host = "") →
      istioValidateSemantics i = some ("Ingress " ++ i.name ++ " in namespace " ++ i.nspace ++
        " specifies an IngressRule without a Host which is currently NOT supported " ++
        "for provider class: " ++ Istio)) ∧
    (istioServesIngress i = true → i.backend = none →
      (∀ r ∈ i.rules, sanitize r.host ≠ "") → istioValidateSemantics i = none) := by
  intro i
  refine ⟨?_, ?_, ?_, ?_, ?_, ?_, ?_, ?_, ?_⟩
  · intro h; simp [atsValidateSemantics, h]
  · intro h hb; simp [atsValidateSemantics, h, hb]
  · intro h hb hp
    have hports : atsGetPorts i = [] := (atsGetPorts_eq_nil_iff i).mpr hp
    simp [atsValidateSemantics, h, hb, hports]
  · intro h hb hp hd
    have hports : ¬(atsGetPorts i = []) := fun hx => hp ((atsGetPorts_eq_nil_iff i).mp hx)
    have hdd : atsGetDefaultDomain i = "" := (atsGetDefaultDomain_empty_iff i).mpr hd
    simp [atsValidateSemantics, h, hb, hports, hdd]
  · intro h hb hp hd
    have hports : ¬(atsGetPorts i = []) := fun hx => hp ((atsGetPorts_eq_nil_iff i).mp hx)
    have hdd : ¬(atsGetDefaultDomain i = "") :=
      fun hx => hd ((atsGetDefaultDomain_empty_iff i).mp hx)
    simp [atsValidateSemantics, h, hb, hports, hdd]
  · intro h; simp [istioValidateSemantics, h]
  · intro h hb; simp [istioValidateSemantics, h, hb]
  · intro h hb hr
    have hany : i.rules.any (fun r => sanitize r.host == "") = true := by
      obtain ⟨r, hrm, hre⟩ := hr
      exact List.any_eq_true.mpr ⟨r, hrm, by simpa using hre⟩
    simp [istioValidateSemantics, h, hb, hany]
  · intro h hb hr
    have hany : i.rules.any (fun r => sanitize r.host == "") = false := by
      apply List.any_eq_false.mpr
      intro r hrm
      simpa using hr r hrm
    simp [istioValidateSemantics, h, hb, hany]

/-- Witness for claim C5: concrete ingresses passing every check of their
provider. -/
theorem claimC5_validateSemantics_witness :
    atsValidateSemantics iAts1 = none ∧ istioValidateSemantics iIstio1 = none :=
  ⟨(claimC5_validateSemantics iAts1).2.2.2.2.1 (by decide) (by decide) (by decide) (by decide),
    (claimC5_validateSemantics iIstio1).2.2.2.2.2.2.2.2 (by decide) (by decide)
      (by decide)⟩

/-- A prefix of domains whose indexed owners are all the ingress itself is
skipped by `validateDomainClaims`. -/
theorem vdc_initSkip (store : List Ingress) (i : Ingress) :
    ∀ (pre tail : List String),
      (∀ d2 ∈ pre, ∀ j ∈ store,
        (indexDomains (getProvider i) j).contains d2 = true →
        j.nspace = i.nspace ∧ j.name = i.name) →
      validateDomainClaims store i (pre ++ tail) = validateDomainClaims store i tail := by
  intro pre
  induction pre with
  | nil => intro tail _; rfl
  | cons p ps ih =>
    intro tail h
    rw [List.cons_append,
      vdc_skip store i p (ps ++ tail) (h p (List.mem_cons_self p ps)),
      ih tail (fun d2 hd2 => h d2 (List.mem_cons_of_mem p hd2))]

/-- Claim C1: the domain-claim check fails at the first domain whose index
lookup (under the resolved provider's name) returns an owner whose namespace
or name differs from the candidate's, with an error naming that domain and
that owner's name and namespace, and checks no further domain; when every
owner of every domain is the candidate itself, the check succeeds. -/
theorem claimC1_domainClaims :
    ∀ (store : List Ingress) (i : Ingress) (domains : List String),
      ((∀ d ∈ domains, ∀ j ∈ store,
          (indexDomains (getProvider i) j).contains d = true →
          j.nspace = i.nspace ∧ j.name = i.name) →
        validateDomainClaims store i domains = none) ∧
      (∀ (pre : List String) (d : String) (rest : List String) (m : Ingress),
        domains = pre ++ d :: rest →
        (∀ d2 ∈ pre, ∀ j ∈ store,
          (indexDomains (getProvider i) j).contains d2 = true →
          j.nspace = i.nspace ∧ j.name = i.name) →
        (store.filter (fun j => (indexDomains (getProvider i) j).contains d)).find?
            (fun m2 => !(m2.nspace == i.nspace && m2.name == i.name)) = some m →
        validateDomainClaims store i domains = some (conflictMsg d m) ∧
        ∀ rest2 : List String,
          validateDomainClaims store i (pre ++ d :: rest2) = some (conflictMsg d m)) := by
  intro store i domains
  constructor
  · exact vdc_none store i domains
  · intro pre d rest m hdom hpre hm
    have key : ∀ rest2 : List String,
        validateDomainClaims store i (pre ++ d :: rest2) = some (conflictMsg d m) := by
      intro rest2
      rw [vdc_initSkip store i pre (d :: rest2) hpre, vdc_conflict store i d rest2 m hm]
    exact ⟨hdom ▸ key rest, key⟩

/-- Witness for claim C1: a conflicting owner in the store produces the
conflict message; a store holding only the candidate itself (a self-claim)
produces no error. -/
theorem claimC1_domainClaims_witness :
    validateDomainClaims [iOwn1] iAts2 (atsGetDomains iAts2)
      = some (conflictMsg ("a.com") iOwn1) ∧
    validateDomainClaims [iAts2] iAts2 (atsGetDomains iAts2) = none := by
  constructor
  · exact ((claimC1_domainClaims [iOwn1] iAts2 (atsGetDomains iAts2)).2
      [] ("a.com") [] iOwn1 (by decide) (by decide) (by decide)).1
  · exact (claimC1_domainClaims [iAts2] iAts2 (atsGetDomains iAts2)).1 (by decide)

/-- Claim C2: domain claims are scoped per provider — the check of an
ATS-served ingress passes over any store of Istio-served ingresses and vice
versa, whatever domains they claim, because the lookup is keyed by the
resolved provider's name. -/
theorem claimC2_provider_isolation :
    ∀ (ia ij : Ingress) (s1 s2 : List Ingress),
      atsServesIngress ia = true → istioServesIngress ij = true →
      (∀ k ∈ s1, istioServesIngress k = true) →
      (∀ k ∈ s2, atsServesIngress k = true) →
      Provider.validateDomainClaims Provider.ats s1 ia = none ∧
      Provider.validateDomainClaims Provider.istio s2 ij = none := by
  intro ia ij s1 s2 ha hi h1 h2
  constructor
  · unfold Provider.validateDomainClaims
    rw [if_pos (show Provider.servesIngress Provider.ats ia = true from ha)]
    apply vdc_none
    intro d _ j hj hcont
    have hgp : getProvider ia = Provider.ats := by
      unfold getProvider
      rw [if_pos ha]
    rw [hgp, indexDomains_eq] at hcont
    have hjf : atsServesIngress j = false := atsServes_false_of_istio (h1 j hj)
    rw [show Provider.getDomains Provider.ats j = atsGetDomains j from rfl,
      atsGetDomains_of_not_serves hjf] at hcont
    cases hcont
  · unfold Provider.validateDomainClaims
    rw [if_pos (show Provider.servesIngress Provider.istio ij = true from hi)]
    apply vdc_none
    intro d _ j hj hcont
    have hgp : getProvider ij = Provider.istio := by
      unfold getProvider
      rw [if_neg (by rw [atsServes_false_of_istio hi]; exact Bool.false_ne_true), if_pos hi]
    rw [hgp, indexDomains_eq] at hcont
    have hjf : istioServesIngress j = false := istioServes_false_of_ats (h2 j hj)
    rw [show Provider.getDomains Provider.istio j = istioGetDomains j from rfl,
      istioGetDomains_of_not_serves hjf] at hcont
    cases hcont

/-- Witness for claim C2: an ATS ingress and an Istio ingress both claiming
the hostname `app.test.com` pass the check against each other. -/
theorem claimC2_provider_isolation_witness :
    Provider.validateDomainClaims Provider.ats [iIstio1] iAts1 = none ∧
    Provider.validateDomainClaims Provider.istio [iAts1] iIstio1 = none :=
  claimC2_provider_isolation iAts1 iIstio1 [iIstio1] [iAts1]
    (by decide) (by decide) (by decide) (by decide)

/-- Claim C8: an ingress whose class annotation names neither registered
provider is served by no provider; resolution falls back to the default ATS
provider, whose `ValidateSemantics` and `ValidateDomainClaims` then return
no error because it does not serve the ingress — so the request is Allowed
with no structural validation and no domain-uniqueness check at all. -/
theorem claimC8_unrecognizedClass :
    ∀ (i : Ingress) (c : String) (store : List Ingress),
      lookupAnn i IngressClass = some c → c ≠ ATS → c ≠ Istio →
      atsServesIngress i = false ∧ istioServesIngress i = false ∧
      getProvider i = Provider.ats ∧
      Provider.validateSemantics Provider.ats i = none ∧
      Provider.validateDomainClaims Provider.ats store i = none ∧
      webhookDecision false store (some ⟨ingressResourceType, some i⟩) = Decision.allow := by
  intro i c store hc hca hci
  have ha : atsServesIngress i = false := by
    unfold atsServesIngress
    rw [hc]
    simpa using hca
  have hi : istioServesIngress i = false := by
    unfold istioServesIngress
    rw [hc]
    simpa using hci
  have hgp : getProvider i = Provider.ats := by
    unfold getProvider
    rw [ha, hi]
    simp
  have hvs : Provider.validateSemantics Provider.ats i = none := by
    simp [Provider.validateSemantics, atsValidateSemantics, ha]
  have hvc : Provider.validateDomainClaims Provider.ats store i = none := by
    simp [Provider.validateDomainClaims, Provider.servesIngress, ha]
  refine ⟨ha, hi, hgp, hvs, hvc, ?_⟩
  simp [webhookDecision, hgp, hvs, hvc]

/-- Witness for claim C8: an ingress with class `"other"` claiming the very
domain the store already owns is Allowed untouched. -/
theorem claimC8_unrecognizedClass_witness :
    webhookDecision false [iOwn1] (some ⟨ingressResourceType, some iOther⟩)
      = Decision.allow :=
  (claimC8_unrecognizedClass iOther ("other") [iOwn1]
    (by decide) (by decide) (by decide)).2.2.2.2.2

/-- Claim C10: `DomainsIndexFunc` is total for both providers — a
non-Ingress object yields a typed error value, an unserved ingress yields
`ok []`, a served ingress yields `ok GetDomains`. -/
theorem claimC10_indexFunc_total : ∀ obj : K8sObject,
    (obj = K8sObject.other →
      atsDomainsIndexFunc obj = Except.error ("Resource is not an Ingress kind.") ∧
      istioDomainsIndexFunc obj = Except.error ("Resource is not an Ingress kind.")) ∧
    (∀ i : Ingress, obj = K8sObject.ingress i →
      (atsServesIngress i = true → atsDomainsIndexFunc obj = Except.ok (atsGetDomains i)) ∧
      (atsServesIngress i = false → atsDomainsIndexFunc obj = Except.ok []) ∧
      (istioServesIngress i = true →
        istioDomainsIndexFunc obj = Except.ok (istioGetDomains i)) ∧
      (istioServesIngress i = false → istioDomainsIndexFunc obj = Except.ok [])) := by
  intro obj
  constructor
  · rintro rfl
    exact ⟨rfl, rfl⟩
  · rintro i rfl
    refine ⟨fun h => ?_, fun h => ?_, fun h => ?_, fun h => ?_⟩ <;>
      simp [atsDomainsIndexFunc, istioDomainsIndexFunc, h]

/-- Witness for claim C10 at a non-Ingress object and at a concrete ingress
not served by Istio. -/
theorem claimC10_indexFunc_total_witness :
    atsDomainsIndexFunc K8sObject.other
      = Except.error ("Resource is not an Ingress kind.") ∧
    istioDomainsIndexFunc (K8sObject.ingress iAts1) = Except.ok [] := by
  constructor
  · exact ((claimC10_indexFunc_total K8sObject.other).1 rfl).1
  · exact ((claimC10_indexFunc_total (K8sObject.ingress iAts1)).2 iAts1 rfl).2.2.2 (by decide)

/-- Claim C7, counterexample: before the initial cache synchronization
completes (phase `boot`), a concrete admission request receives no decision
at all — the webhook server has not been started — rather than a Deny
carrying an IndexUnavailableError as the claim states. -/
theorem claimC7_counterexample :
    serveDecision MainPhase.boot false [iOwn1]
      (some ⟨ingressResourceType, some iAts2⟩) = none := rfl

/-- Claim C7, amended: the process fails closed before the initial cache
synchronization completes, but by sequencing rather than by denying — the
webhook handler becomes reachable only after synchronization is done, and
while synchronization is incomplete no admission decision (in particular no
Allow) is served at all. -/
theorem claimC7_failClosed :
    (∀ s : MainPhase, MainReachable s → MainPhase.handlerReachable s = true →
      MainPhase.syncedDone s = true) ∧
    (∀ (s : MainPhase) (admitAll : Bool) (store : List Ingress)
        (body : Option AdmissionRequest),
      MainPhase.syncedDone s = false →
      serveDecision s admitAll store body = none) := by
  constructor
  · intro s _ h
    cases s with
    | boot => cases h
    | cacheSynced => cases h
    | serving => rfl
  · intro s admitAll store body h
    cases s with
    | boot => rfl
    | cacheSynced => cases h
    | serving => cases h

/-- Witness for the amended claim C7: the serving phase is reached only
after synchronization, and in the boot phase nothing is served. -/
theorem claimC7_failClosed_witness :
    MainPhase.syncedDone MainPhase.serving = true ∧
    serveDecision MainPhase.boot false [] none = none :=
  ⟨claimC7_failClosed.1 MainPhase.serving
      (MainReachable.step (MainReachable.step MainReachable.init MainStep.sync) MainStep.serve)
      rfl,
    claimC7_failClosed.2 MainPhase.boot false [] none rfl⟩
